import Mathlib

/-
Verification of the AdX bidding agents (agent10 / agent11): the effective
reach value model, the bid shading computation, the epsilon greedy policy
and the tabular Q learning updates.
-/

namespace AdxVerify

noncomputable section

open Real

/-- Sigmoid shape constant a, as in agent11 (a = 4.08577). -/
def aConst : ℝ := 4.08577

/-- Sigmoid shape constant b, as in agent11 (b = 3.08577). -/
def bConst : ℝ := 3.08577

/-- Translation of the agent11 method that computes effective reach: if R
equals 0 it returns 0, otherwise the rescaled arctangent sigmoid
(2 divided by a) times (atan (a (x div R) minus b) minus atan (minus b)). -/
def effectiveReach (x R : ℝ) : ℝ :=
  if R = 0 then 0
  else (2 / aConst) * (Real.arctan (aConst * (x / R) - bConst) - Real.arctan (-bConst))

/-- Translation of the agent11 method that computes marginal utility: if R
is nonpositive it returns 0, otherwise 2 divided by (R times
(1 plus (a (x div R) minus b) squared)). -/
def marginalUtility (x R : ℝ) : ℝ :=
  if R ≤ 0 then 0
  else 2 / (R * (1 + (aConst * (x / R) - bConst) ^ 2))

/-- Mean value upper bound for the arctangent on a nonnegative interval:
the increment is at most the interval length divided by 1 plus the square
of the left endpoint. -/
lemma arctan_sub_le_of_nonneg {x y : ℝ} (hx : 0 ≤ x) (hxy : x ≤ y) :
    Real.arctan y - Real.arctan x ≤ (y - x) / (1 + x ^ 2) := by
  rcases eq_or_lt_of_le hxy with rfl | hlt
  · simp
  · obtain ⟨c, hc, hderiv⟩ :=
      exists_hasDerivAt_eq_slope Real.arctan (fun t => 1 / (1 + t ^ 2)) hlt
        Real.continuous_arctan.continuousOn
        (fun t _ => Real.hasDerivAt_arctan t)
    have hcx : x < c := hc.1
    have h1 : (0:ℝ) < 1 + x ^ 2 := by positivity
    have h2 : x ^ 2 ≤ c ^ 2 := by nlinarith
    rw [eq_div_iff (by intro h0; apply hlt.ne; linarith : y - x ≠ 0)] at hderiv
    rw [← hderiv]
    have hA : 1 / (1 + c ^ 2) ≤ 1 / (1 + x ^ 2) :=
      one_div_le_one_div_of_le h1 (by linarith)
    calc 1 / (1 + c ^ 2) * (y - x) ≤ 1 / (1 + x ^ 2) * (y - x) :=
          mul_le_mul_of_nonneg_right hA (by linarith)
      _ = (y - x) / (1 + x ^ 2) := by ring

/-- Mean value lower bound for the arctangent on a nonnegative interval:
the increment is at least the interval length divided by 1 plus the square
of the right endpoint. -/
lemma le_arctan_sub_of_nonneg {x y : ℝ} (hx : 0 ≤ x) (hxy : x ≤ y) :
    (y - x) / (1 + y ^ 2) ≤ Real.arctan y - Real.arctan x := by
  rcases eq_or_lt_of_le hxy with rfl | hlt
  · simp
  · obtain ⟨c, hc, hderiv⟩ :=
      exists_hasDerivAt_eq_slope Real.arctan (fun t => 1 / (1 + t ^ 2)) hlt
        Real.continuous_arctan.continuousOn
        (fun t _ => Real.hasDerivAt_arctan t)
    have hcx : x < c := hc.1
    have hcy : c < y := hc.2
    have h1 : (0:ℝ) < 1 + y ^ 2 := by positivity
    have h2 : c ^ 2 ≤ y ^ 2 := by nlinarith
    rw [eq_div_iff (by intro h0; apply hlt.ne; linarith : y - x ≠ 0)] at hderiv
    rw [← hderiv]
    have hA : 1 / (1 + y ^ 2) ≤ 1 / (1 + c ^ 2) :=
      one_div_le_one_div_of_le (by positivity) (by linarith)
    calc (y - x) / (1 + y ^ 2) = 1 / (1 + y ^ 2) * (y - x) := by ring
      _ ≤ 1 / (1 + c ^ 2) * (y - x) := mul_le_mul_of_nonneg_right hA (by linarith)

/-- Numeric bracket for the arctangent of 100000 div 308577, the reciprocal
of the sigmoid constant b, obtained by chaining mean value bounds over the
grid 0, 0.1, 0.2, 0.27. -/
lemma arctan_inv_b_bounds :
    (0.3093369 : ℝ) ≤ Real.arctan (100000 / 308577) ∧
      Real.arctan (100000 / 308577) ≤ 0.3167127 := by
  have h1l := le_arctan_sub_of_nonneg (x := 0) (y := 0.1) (by norm_num) (by norm_num)
  have h1u := arctan_sub_le_of_nonneg (x := 0) (y := 0.1) (by norm_num) (by norm_num)
  have h2l := le_arctan_sub_of_nonneg (x := 0.1) (y := 0.2) (by norm_num) (by norm_num)
  have h2u := arctan_sub_le_of_nonneg (x := 0.1) (y := 0.2) (by norm_num) (by norm_num)
  have h3l := le_arctan_sub_of_nonneg (x := 0.2) (y := 0.27) (by norm_num) (by norm_num)
  have h3u := arctan_sub_le_of_nonneg (x := 0.2) (y := 0.27) (by norm_num) (by norm_num)
  have h4l := le_arctan_sub_of_nonneg (x := 0.27) (y := 100000 / 308577)
    (by norm_num) (by norm_num)
  have h4u := arctan_sub_le_of_nonneg (x := 0.27) (y := 100000 / 308577)
    (by norm_num) (by norm_num)
  rw [Real.arctan_zero] at h1l h1u
  norm_num at h1l h1u h2l h2u h3l h3u h4l h4u
  constructor <;> linarith

/-- Numeric bracket for the arctangent of 1.042885 around pi div 4,
obtained from a single mean value bound on the interval from 1. -/
lemma arctan_c_bounds :
    π / 4 + 0.020542 ≤ Real.arctan 1.042885 ∧
      Real.arctan 1.042885 ≤ π / 4 + 0.0214425 := by
  have hl := le_arctan_sub_of_nonneg (x := 1) (y := 1.042885) (by norm_num) (by norm_num)
  have hu := arctan_sub_le_of_nonneg (x := 1) (y := 1.042885) (by norm_num) (by norm_num)
  rw [Real.arctan_one] at hl hu
  norm_num at hl hu
  constructor <;> linarith

/-- Numeric bracket for the effective reach of the scenario with 500
impressions won out of a target of 1000: the value lies strictly between
0.218 and 0.224. -/
lemma effectiveReach_500_1000_bounds :
    (0.218 : ℝ) < effectiveReach 500 1000 ∧ effectiveReach 500 1000 < 0.224 := by
  have hform : effectiveReach 500 1000 =
      (2 / aConst) * (Real.arctan 3.08577 - Real.arctan 1.042885) := by
    rw [effectiveReach, if_neg (by norm_num : (1000:ℝ) ≠ 0)]
    rw [show aConst * ((500:ℝ) / 1000) - bConst = -(1.042885 : ℝ) by
      rw [aConst, bConst]; norm_num]
    rw [show (-bConst : ℝ) = -(3.08577 : ℝ) by rw [bConst]]
    rw [Real.arctan_neg, Real.arctan_neg]
    ring
  have hb : Real.arctan 3.08577 = π / 2 - Real.arctan (100000 / 308577) := by
    have h := Real.arctan_inv_of_pos (by norm_num : (0:ℝ) < 3.08577)
    rw [show ((3.08577 : ℝ))⁻¹ = 100000 / 308577 by norm_num] at h
    linarith
  have hq := arctan_inv_b_bounds
  have hc := arctan_c_bounds
  have hpil := Real.pi_gt_d6
  have hpiu := Real.pi_lt_d6
  rw [hform, hb, aConst]
  constructor <;> nlinarith [hq.1, hq.2, hc.1, hc.2]

/-- Translation of the agent11 state indexing: 3 urgency buckets by days
left crossed with 3 pacing buckets by the ratio of needed impressions per
day to total reach (the total is floored at 1 before dividing). -/
def getStateIndex (daysLeft : ℤ) (neededPerDay : ℝ) (totalReach : ℤ) : ℕ :=
  let t : ℕ := if daysLeft ≤ 1 then 0 else if daysLeft ≤ 3 then 1 else 2
  let ratio : ℝ := neededPerDay / ((max 1 totalReach : ℤ) : ℝ)
  let p : ℕ := if ratio < 0.1 then 0 else if ratio < 0.3 then 1 else 2
  t * 3 + p

/-- Translation of the agent10 urgency bucket: 0 for at most 1 day left,
1 for at most 3 days left, 2 otherwise. -/
def urgencyBucket (daysLeft : ℤ) : ℕ :=
  if daysLeft ≤ 1 then 0 else if daysLeft ≤ 3 then 1 else 2

/-- Functional embedding of writing one cell of the numpy Q table. -/
def setQ (Q : ℕ → ℕ → ℝ) (s a : ℕ) (v : ℝ) : ℕ → ℕ → ℝ :=
  fun s2 a2 => if s2 = s ∧ a2 = a then v else Q s2 a2

/-- Translation of the plain agent10 Q update for one cell:
Q gets Q plus alpha times (reward minus Q). -/
def qUpdate (Q : ℕ → ℕ → ℝ) (s a : ℕ) (alpha reward : ℝ) : ℕ → ℕ → ℝ :=
  setQ Q s a (Q s a + alpha * (reward - Q s a))

/-- Translation of the agent10 batch update: every (bucket, action) pair
recorded yesterday receives the same global reward, with no reference to
the set of currently active campaigns. -/
def updateQFromLastActions (Q : ℕ → ℕ → ℝ) (alpha reward : ℝ)
    (lastActions : List (ℕ × ℕ)) : ℕ → ℕ → ℝ :=
  lastActions.foldl (fun q p => qUpdate q p.1 p.2 alpha reward) Q

/-- Daily observation of one campaign, as queried by the agents from the
simulator: identifier, reach target, budget, end day, and the cumulative
impressions and cost reported for today. -/
structure CampObs where
  uid : ℕ
  reach : ℤ
  budget : ℝ
  endDay : ℤ
  cumReach : ℤ
  cumCost : ℝ

/-- Lookup of a campaign by identifier, mirroring the dictionary built
from the active campaign list in agent11. -/
def findCampaign : List CampObs → ℕ → Option CampObs
  | [], _ => none
  | c :: rest, uid => if c.uid = uid then some c else findCampaign rest uid

/-- Per campaign reward of agent11: todays effective reach value times
budget, minus yesterdays, minus the cost incurred between the two days. -/
def campaignReward (c : CampObs) (prevWon : ℤ) (prevSpent : ℝ) : ℝ :=
  (effectiveReach (c.cumReach : ℝ) (c.reach : ℝ) * c.budget
      - effectiveReach (prevWon : ℝ) (c.reach : ℝ) * c.budget)
    - (c.cumCost - prevSpent)

/-- Maximum of one row of the Q table over the 11 actions of agent11,
mirroring the numpy row maximum. -/
def rowMax (Q : ℕ → ℕ → ℝ) (s : ℕ) : ℝ :=
  ((List.range 11).map (Q s)).foldr max (Q s 0)

/-- Pending action recorded by agent11 for one campaign: state index,
action index, impressions won and cost spent at recording time. -/
structure PendAction where
  state : ℕ
  action : ℕ
  won : ℤ
  spent : ℝ

/-- Translation of one iteration of the agent11 batch Q update loop: a
stale identifier is skipped, otherwise the recorded cell receives the
bootstrapped update with the per campaign reward. -/
def batchUpdateEntry (Q : ℕ → ℕ → ℝ) (alpha gamma : ℝ) (active : List CampObs)
    (currentDay : ℤ) (uid : ℕ) (e : PendAction) : ℕ → ℕ → ℝ :=
  match findCampaign active uid with
  | none => Q
  | some c =>
    let reward := campaignReward c e.won e.spent
    let daysLeft := max 0 (c.endDay - currentDay + 1)
    let maxFutureQ : ℝ :=
      if daysLeft = 0 ∨ c.reach - c.cumReach ≤ 0 then 0
      else
        rowMax Q (getStateIndex daysLeft
          (((max 1 (c.reach - c.cumReach) : ℤ) : ℝ) / ((daysLeft : ℤ) : ℝ)) c.reach)
    setQ Q e.state e.action
      (Q e.state e.action + alpha * (reward + gamma * maxFutureQ - Q e.state e.action))

/-- Translation of the whole agent11 batch Q update: fold the per entry
update over the recorded pending actions. -/
def batchUpdateQ (Q : ℕ → ℕ → ℝ) (alpha gamma : ℝ)
    (lastActions : List (ℕ × PendAction)) (active : List CampObs)
    (currentDay : ℤ) : ℕ → ℕ → ℝ :=
  lastActions.foldl (fun q p => batchUpdateEntry q alpha gamma active currentDay p.1 p.2) Q

/-- Translation of the per campaign bid derivation of agent11: skip when
the remaining budget or remaining reach is nonpositive, otherwise emit
the shaded marginal value clamped by max(0.01, min(price, remaining
budget, 5)). -/
def adBid (c : CampObs) (beta : ℝ) : Option ℝ :=
  let rLeft : ℤ := max 0 (c.reach - c.cumReach)
  let bLeft : ℝ := max 0 (c.budget - c.cumCost)
  if bLeft ≤ 0 ∨ rLeft ≤ 0 then none
  else some (max 0.01
    (min (min (beta * (marginalUtility (c.cumReach : ℝ) (c.reach : ℝ) * c.budget)) bLeft) 5))

/-- Translation of the agent10 price computation: the shaded base price
per impression, first clamped by max(0.01, min(price, remaining budget))
and then capped at 5. -/
def adPrice10 (bLeft : ℝ) (rLeft : ℤ) (beta : ℝ) : ℝ :=
  min (max 0.01 (min (beta * (bLeft / ((max rLeft 1 : ℤ) : ℝ))) bLeft)) 5

/-- First maximum scan of a list, mirroring the numpy argmax convention:
the returned pair holds the index of the first occurrence of the maximum
together with the maximum itself. -/
def argmaxVal {α : Type} [LinearOrder α] : List α → Option (ℕ × α)
  | [] => none
  | x :: xs =>
    match argmaxVal xs with
    | none => some (0, x)
    | some (j, m) => if x < m then some (j + 1, m) else some (0, x)

/-- Index of the first occurrence of the maximum of a list, 0 on the
empty list, mirroring numpy argmax. -/
def npArgmax {α : Type} [LinearOrder α] (l : List α) : ℕ :=
  (argmaxVal l).elim 0 Prod.fst

/-- Translation of the epsilon greedy action selection of both agents:
explore with the supplied random index when the uniform draw is below
epsilon, otherwise exploit with the row argmax. -/
def selectAction {α : Type} [LinearOrder α] (eps rand : ℝ) (randIdx : ℕ)
    (row : List α) : ℕ :=
  if rand < eps then randIdx else npArgmax row

/-- One day of the 2 state 2 action toy scenario for the plain agent10
update with learning rate one half: cell (0, 0) always receives reward 1
and the three other cells always receive reward 0. -/
def toyStep (Q : ℕ → ℕ → ℝ) : ℕ → ℕ → ℝ :=
  qUpdate (qUpdate (qUpdate (qUpdate Q 0 0 (1 / 2) 1) 0 1 (1 / 2) 0) 1 0 (1 / 2) 0) 1 1 (1 / 2) 0

/-- Iterated toy scenario starting from the all zero table. -/
def toyIter : ℕ → (ℕ → ℕ → ℝ)
  | 0 => fun _ _ => 0
  | n + 1 => toyStep (toyIter n)

/-- Scenario campaign of the spec for the reward rule: reach 1000, budget
500, current cumulative reach 150 and current cumulative cost 25. -/
def scenarioCamp : CampObs :=
  { uid := 7, reach := 1000, budget := 500, endDay := 10, cumReach := 150, cumCost := 25 }

/-- Campaign exhibiting the clamp corner of the bid derivation: remaining
budget 0.005, strictly positive but below the 0.01 price floor. -/
def tinyBudgetCamp : CampObs :=
  { uid := 1, reach := 10, budget := 0.005, endDay := 3, cumReach := 0, cumCost := 0 }

/-- Helper: the effective reach formula evaluated at 500 impressions with
reach minus 1000 is strictly negative, because the guard only tests for
reach equal to zero. -/
lemma effectiveReach_neg_reach_lt_zero : effectiveReach 500 (-1000) < 0 := by
  rw [effectiveReach, if_neg (by norm_num : ((-1000 : ℝ)) ≠ 0)]
  rw [show aConst * ((500:ℝ) / (-1000)) - bConst = -(5.128655 : ℝ) by
    rw [aConst, bConst]; norm_num]
  have hlt : Real.arctan (-(5.128655 : ℝ)) < Real.arctan (-bConst) := by
    apply Real.arctan_strictMono; rw [bConst]; norm_num
  have ha : (0:ℝ) < 2 / aConst := by rw [aConst]; norm_num
  exact mul_neg_of_pos_of_neg ha (by linarith)

/-- C2 counterexample: the degenerate reach guard of the effective reach
method only covers R equal to 0, so at x 500 and R minus 1000 the method
returns a nonzero (negative) value instead of 0. -/
theorem claim2_cex : effectiveReach 500 (-1000) ≠ 0 :=
  ne_of_lt effectiveReach_neg_reach_lt_zero

/-- C2 (amended): the marginal utility guard covers every nonpositive R
and returns exactly 0 there; the effective reach guard covers only R
equal to 0, and for negative R the formula is evaluated and can return a
nonzero value, as at x 500 and R minus 1000. -/
theorem claim2_degenerate_guards :
    (∀ x R : ℝ, R ≤ 0 → marginalUtility x R = 0) ∧
      (∀ x : ℝ, effectiveReach x 0 = 0) ∧ effectiveReach 500 (-1000) < 0 := by
  refine ⟨?_, ?_, effectiveReach_neg_reach_lt_zero⟩
  · intro x R hR; rw [marginalUtility, if_pos hR]
  · intro x; rw [effectiveReach, if_pos rfl]

/-- C2 witness: the guards evaluated at concrete degenerate inputs. -/
theorem claim2_witness : marginalUtility 3 (-2) = 0 ∧ effectiveReach 3 0 = 0 :=
  ⟨claim2_degenerate_guards.1 3 (-2) (by norm_num), claim2_degenerate_guards.2.1 3⟩

/-- C6: for fixed integer R positive, effective reach is strictly
increasing in the number x of impressions won, and it vanishes at x 0. -/
theorem claim6_strict_mono :
    ∀ R x1 x2 : ℤ, 0 < R → 0 ≤ x1 → x1 < x2 →
      effectiveReach (x1 : ℝ) (R : ℝ) < effectiveReach (x2 : ℝ) (R : ℝ) ∧
        effectiveReach 0 (R : ℝ) = 0 := by
  intro R x1 x2 hR hx1 hx12
  have hRr : (0:ℝ) < (R : ℝ) := by exact_mod_cast hR
  have hRne : (R : ℝ) ≠ 0 := ne_of_gt hRr
  have ha : (0:ℝ) < aConst := by rw [aConst]; norm_num
  constructor
  · rw [effectiveReach, effectiveReach, if_neg hRne, if_neg hRne]
    have hcast : (x1 : ℝ) < (x2 : ℝ) := by exact_mod_cast hx12
    have hx : (x1 : ℝ) / R < (x2 : ℝ) / R := by gcongr
    have hu : aConst * ((x1:ℝ) / R) - bConst < aConst * ((x2:ℝ) / R) - bConst := by
      have := mul_lt_mul_of_pos_left hx ha
      linarith
    have harc := Real.arctan_strictMono hu
    have h2a : (0:ℝ) < 2 / aConst := by positivity
    have := mul_lt_mul_of_pos_left (sub_lt_sub_right harc (Real.arctan (-bConst))) h2a
    linarith
  · rw [effectiveReach, if_neg hRne]
    simp

/-- C6 witness: monotonicity at the concrete points 0 and 500 with reach
1000, together with the zero value at x 0. -/
theorem claim6_witness :
    effectiveReach ((0:ℤ) : ℝ) ((1000:ℤ) : ℝ) < effectiveReach ((500:ℤ) : ℝ) ((1000:ℤ) : ℝ) ∧
      effectiveReach 0 ((1000:ℤ) : ℝ) = 0 :=
  claim6_strict_mono 1000 0 500 (by norm_num) (by norm_num) (by norm_num)

/-- C10: the combined urgency times pacing state index of agent11 is
always at most 8, and the single axis urgency bucket of agent10 is always
at most 2, for every integer days left, real needed per day and integer
total reach; both are natural numbers, so every Q table access they index
is in bounds. -/
theorem claim10_state_bounds :
    ∀ (d : ℤ) (n : ℝ) (r : ℤ), getStateIndex d n r ≤ 8 ∧ urgencyBucket d ≤ 2 := by
  intro d n r
  constructor
  · simp only [getStateIndex]
    split_ifs <;> norm_num
  · rw [urgencyBucket]
    split_ifs <;> norm_num

/-- C3 counterexample: for the campaign with remaining budget 0.005 the
emitted per impression price is 0.01, which strictly exceeds the
remaining budget, refuting the claim that the emitted price never exceeds
the remaining budget. -/
theorem claim3_cex :
    adBid tinyBudgetCamp 1 = some 0.01 ∧
      tinyBudgetCamp.budget - tinyBudgetCamp.cumCost < 0.01 := by
  constructor
  · rw [adBid]
    rw [if_neg]
    · congr 1
      have h1 : max (0:ℝ) (tinyBudgetCamp.budget - tinyBudgetCamp.cumCost) = 0.005 := by
        rw [tinyBudgetCamp]; norm_num
      rw [h1]
      have h2 : min (min (1 * (marginalUtility ((tinyBudgetCamp.cumReach : ℤ) : ℝ)
          ((tinyBudgetCamp.reach : ℤ) : ℝ) * tinyBudgetCamp.budget)) (0.005 : ℝ)) 5 ≤ 0.01 := by
        refine le_trans (le_trans (min_le_left _ _) (min_le_right _ _)) (by norm_num)
      rw [max_eq_left h2]
    · rw [tinyBudgetCamp]
      push_neg
      norm_num
  · rw [tinyBudgetCamp]; norm_num

/-- C3 (amended): when a bid is emitted its price is the shaded marginal
value clamped by max(0.01, min(price, remaining budget, 5)); the price is
always at least 0.01 (so never nonpositive, and a bid is always emitted
once the skip guard passes) and at most 5, and it is bounded by the
remaining budget whenever the remaining budget is at least the 0.01
floor; the agent10 price satisfies the same bounds. -/
theorem claim3_price_clamp :
    (∀ (c : CampObs) (beta p : ℝ), adBid c beta = some p →
        p = max 0.01 (min (min (beta * (marginalUtility (c.cumReach : ℝ) (c.reach : ℝ)
              * c.budget)) (max 0 (c.budget - c.cumCost))) 5) ∧
          0.01 ≤ p ∧ p ≤ 5 ∧
          (0.01 ≤ c.budget - c.cumCost → p ≤ c.budget - c.cumCost)) ∧
      ∀ (bLeft : ℝ) (rLeft : ℤ) (beta : ℝ),
        0.01 ≤ adPrice10 bLeft rLeft beta ∧ adPrice10 bLeft rLeft beta ≤ 5 ∧
          (0.01 ≤ bLeft → adPrice10 bLeft rLeft beta ≤ bLeft) := by
  constructor
  · intro c beta p h
    rw [adBid] at h
    by_cases hcond : max (0:ℝ) (c.budget - c.cumCost) ≤ 0 ∨ max 0 (c.reach - c.cumReach) ≤ 0
    · rw [if_pos hcond] at h; exact absurd h (by simp)
    · rw [if_neg hcond] at h
      have hp := (Option.some_injective ℝ h).symm
      refine ⟨hp, ?_, ?_, ?_⟩
      · rw [hp]; exact le_max_left _ _
      · rw [hp]
        exact max_le (by norm_num) (min_le_right _ _)
      · intro hB
        have hmax0 : max (0:ℝ) (c.budget - c.cumCost) = c.budget - c.cumCost :=
          max_eq_right (by linarith)
        rw [hp, hmax0]
        refine max_le hB ?_
        exact le_trans (min_le_left _ _) (min_le_right _ _)
  · intro bLeft rLeft beta
    rw [adPrice10]
    refine ⟨le_min (le_max_left _ _) (by norm_num), min_le_right _ _, ?_⟩
    intro hB
    refine le_trans (min_le_left _ _) (max_le hB (min_le_right _ _))

/-- C3 witness: the clamp facts evaluated on an emitted bid of the tiny
budget campaign with shading factor 1. -/
theorem claim3_witness :
    0.01 ≤ adPrice10 2 10 1 ∧ adPrice10 2 10 1 ≤ 5 ∧
      (0.01 ≤ (2:ℝ) → adPrice10 2 10 1 ≤ 2) :=
  claim3_price_clamp.2 2 10 1

/-- Helper: looking up an identifier that does not occur in the active
campaign list yields none. -/
lemma findCampaign_eq_none (active : List CampObs) (uid : ℕ)
    (h : uid ∉ active.map CampObs.uid) : findCampaign active uid = none := by
  induction active with
  | nil => rfl
  | cons c rest ih =>
    simp only [List.map_cons, List.mem_cons] at h
    push_neg at h
    rw [findCampaign, if_neg (fun he => h.1 he.symm)]
    exact ih h.2

/-- C8 (amended): in the agent11 batch update an entry whose campaign
identifier is absent from the active set leaves the Q table unchanged and
cannot fail, exactly as the claim states; in the agent10 coarse update,
however, every recorded (bucket, action) pair receives the shared global
reward whether or not the campaign is still active, so there the stale
entry does update the table. -/
theorem claim8_stale_skip :
    ∀ (Q : ℕ → ℕ → ℝ) (alpha gamma : ℝ) (active : List CampObs) (d : ℤ)
      (uid : ℕ) (e : PendAction), uid ∉ active.map CampObs.uid →
      batchUpdateEntry Q alpha gamma active d uid e = Q := by
  intro Q alpha gamma active d uid e h
  rw [batchUpdateEntry, findCampaign_eq_none active uid h]

/-- C8 witness: the skip evaluated for the recorded identifier 42 against
an empty active set. -/
theorem claim8_witness :
    batchUpdateEntry (fun _ _ => 0) (1/10) (9/10) [] 3 42 ⟨0, 0, 0, 0⟩ =
      (fun _ _ => (0:ℝ)) :=
  claim8_stale_skip (fun _ _ => 0) (1/10) (9/10) [] 3 42 ⟨0, 0, 0, 0⟩ (by simp)

/-- C8 counterexample: the agent10 coarse update applied to the pending
pair recorded for the stale campaign 42 (bucket 0, action 3, a uid absent
from the now empty active set) changes the Q table, so the update is not
a no-op there. -/
theorem claim8_cex :
    updateQFromLastActions (fun _ _ => 0) (1/5) 1 [(0, 3)] 0 3 = 1/5 ∧
      ((1/5 : ℝ)) ≠ 0 := by
  constructor
  · simp [updateQFromLastActions, qUpdate, setQ]
  · norm_num

/-- Helper: closed form of the toy iteration, the target cell carries
1 minus (1 div 2) to the n and every other cell stays at 0. -/
lemma toyIter_apply :
    ∀ n s a : ℕ, toyIter n s a = if s = 0 ∧ a = 0 then 1 - (1/2 : ℝ) ^ n else 0 := by
  intro n
  induction n with
  | zero =>
    intro s a
    simp [toyIter]
  | succ n ih =>
    intro s a
    have h00 : toyIter n 0 0 = 1 - (1/2 : ℝ) ^ n := by rw [ih]; norm_num
    have h01 : toyIter n 0 1 = 0 := by rw [ih]; norm_num
    have h10 : toyIter n 1 0 = 0 := by rw [ih]; norm_num
    have h11 : toyIter n 1 1 = 0 := by rw [ih]; norm_num
    by_cases hs0 : s = 0
    · by_cases ha0 : a = 0
      · subst hs0; subst ha0
        simp only [toyIter, toyStep, qUpdate, setQ]
        norm_num [h00]
        rw [pow_succ]; ring
      · by_cases ha1 : a = 1
        · subst hs0; subst ha1
          simp only [toyIter, toyStep, qUpdate, setQ]
          norm_num [h01]
        · subst hs0
          simp only [toyIter, toyStep, qUpdate, setQ]
          simp only [ha0, ha1]
          norm_num [ha0, ha1]
          rw [ih 0 a, if_neg (by simp [ha0])]
    · by_cases hs1 : s = 1
      · by_cases ha0 : a = 0
        · subst hs1; subst ha0
          simp only [toyIter, toyStep, qUpdate, setQ]
          norm_num [h10]
        · by_cases ha1 : a = 1
          · subst hs1; subst ha1
            simp only [toyIter, toyStep, qUpdate, setQ]
            norm_num [h11]
          · subst hs1
            simp only [toyIter, toyStep, qUpdate, setQ]
            norm_num [ha0, ha1]
            rw [ih 1 a, if_neg (by simp)]
      · simp only [toyIter, toyStep, qUpdate, setQ]
        norm_num [hs0, hs1]
        rw [ih s a, if_neg (by simp [hs0])]

/-- C9: the plain agent10 Q update writes Q plus alpha times (reward
minus Q) into the selected cell and leaves every other cell unchanged;
the singleton batch update agrees with the single cell update; and in the
2 state 2 action toy scenario with learning rate one half where cell
(0, 0) always receives reward 1 and the others reward 0, the target cell
equals 1 minus (1 div 2) to the n after n updates, is within 10 to the
minus 9 of 1 after 50 updates, and every other cell remains exactly 0. -/
theorem claim9_q_update :
    (∀ (Q : ℕ → ℕ → ℝ) (s a : ℕ) (alpha reward : ℝ),
        qUpdate Q s a alpha reward s a = Q s a + alpha * (reward - Q s a) ∧
          ∀ s2 a2 : ℕ, ¬(s2 = s ∧ a2 = a) → qUpdate Q s a alpha reward s2 a2 = Q s2 a2) ∧
      (∀ (Q : ℕ → ℕ → ℝ) (s a : ℕ) (alpha reward : ℝ),
        updateQFromLastActions Q alpha reward [(s, a)] = qUpdate Q s a alpha reward) ∧
      (∀ n : ℕ, toyIter n 0 0 = 1 - (1/2 : ℝ) ^ n) ∧
      |toyIter 50 0 0 - 1| < 1 / 1000000000 ∧
      (∀ n s a : ℕ, ¬(s = 0 ∧ a = 0) → toyIter n s a = 0) := by
  refine ⟨?_, ?_, ?_, ?_, ?_⟩
  · intro Q s a alpha reward
    constructor
    · rw [qUpdate, setQ]; simp
    · intro s2 a2 h
      rw [qUpdate, setQ]
      exact if_neg h
  · intro Q s a alpha reward
    rfl
  · intro n
    rw [toyIter_apply]; norm_num
  · have h : toyIter 50 0 0 = 1 - (1/2 : ℝ) ^ 50 := by
      rw [toyIter_apply]; norm_num
    rw [h, show (1:ℝ) - (1/2)^50 - 1 = -((1/2 : ℝ)^50) by ring, abs_neg,
      abs_of_nonneg (by positivity)]
    norm_num
  · intro n s a h
    rw [toyIter_apply, if_neg h]

/-- C9 witness: the frame condition and the toy scenario evaluated at
concrete cells. -/
theorem claim9_witness :
    qUpdate (fun _ _ => 0) 0 0 (1/2) 1 1 1 = (0:ℝ) ∧ toyIter 3 1 1 = 0 :=
  ⟨(claim9_q_update.1 (fun _ _ => 0) 0 0 (1/2) 1).2 1 1 (by norm_num),
    claim9_q_update.2.2.2.2 3 1 1 (by norm_num)⟩

/-- Helper: specification of the first maximum scan. On a nonempty list
it returns the index of the first occurrence of the maximum: the value at
the index is the maximum, every element is at most it, and every earlier
element is strictly below it. -/
lemma argmaxVal_spec {α : Type} [LinearOrder α] :
    ∀ l : List α, l ≠ [] → ∃ j m, argmaxVal l = some (j, m) ∧
      ∃ hj : j < l.length, l.get ⟨j, hj⟩ = m ∧
        (∀ i (hi : i < l.length), l.get ⟨i, hi⟩ ≤ m) ∧
        (∀ i (hi : i < l.length), i < j → l.get ⟨i, hi⟩ < m) := by
  intro l
  induction l with
  | nil => intro h; exact absurd rfl h
  | cons x xs ih =>
    intro _
    by_cases hxs : xs = []
    · subst hxs
      refine ⟨0, x, rfl, by simp, rfl, ?_, ?_⟩
      · intro i hi
        have hi0 : i = 0 := by simpa using hi
        subst hi0; exact le_refl x
      · intro i hi hij; omega
    · obtain ⟨j, m, hav, hj, hget, hle, hlt⟩ := ih hxs
      by_cases hxm : x < m
      · refine ⟨j + 1, m, ?_, ?_, ?_, ?_, ?_⟩
        · rw [argmaxVal, hav]; simp [hxm]
        · simpa using Nat.succ_lt_succ hj
        · simpa using hget
        · intro i hi
          match i with
          | 0 => exact le_of_lt hxm
          | Nat.succ k =>
            have hk : k < xs.length := by simpa using hi
            simpa using hle k hk
        · intro i hi hij
          match i with
          | 0 => exact hxm
          | Nat.succ k =>
            have hk : k < xs.length := by simpa using hi
            simpa using hlt k hk (by omega)
      · refine ⟨0, x, ?_, by simp, rfl, ?_, ?_⟩
        · rw [argmaxVal, hav]; simp [hxm]
        · intro i hi
          match i with
          | 0 => exact le_refl x
          | Nat.succ k =>
            have hk : k < xs.length := by simpa using hi
            have := hle k hk
            have hmx : m ≤ x := not_lt.mp hxm
            simpa using le_trans this hmx
        · intro i hi hij; omega

/-- C7: with exploration rate 0 the selected action is always the row
argmax (the uniform draw is nonnegative, so the explore branch never
fires), selection is deterministic across any two draws, and the argmax
is the first occurrence of the row maximum: its value dominates the whole
row and strictly dominates every earlier entry. -/
theorem claim7_greedy {α : Type} [LinearOrder α] (row : List α)
    (eps rand : ℝ) (randIdx : ℕ) (hrow : row ≠ []) (heps : eps = 0)
    (hrand : 0 ≤ rand) :
    selectAction eps rand randIdx row = npArgmax row ∧
      (∀ (rand2 : ℝ) (randIdx2 : ℕ), 0 ≤ rand2 →
        selectAction eps rand randIdx row = selectAction eps rand2 randIdx2 row) ∧
      ∃ hj : npArgmax row < row.length,
        (∀ i (hi : i < row.length), row.get ⟨i, hi⟩ ≤ row.get ⟨npArgmax row, hj⟩) ∧
        (∀ i (hi : i < row.length), i < npArgmax row →
          row.get ⟨i, hi⟩ < row.get ⟨npArgmax row, hj⟩) := by
  subst heps
  have hsel : ∀ (r : ℝ) (k : ℕ), 0 ≤ r → selectAction 0 r k row = npArgmax row := by
    intro r k hr
    rw [selectAction, if_neg (not_lt.mpr hr)]
  obtain ⟨j, m, hav, hj, hget, hle, hlt⟩ := argmaxVal_spec row hrow
  have hnp : npArgmax row = j := by rw [npArgmax, hav]; rfl
  refine ⟨hsel rand randIdx hrand, ?_, ?_⟩
  · intro rand2 randIdx2 hrand2
    rw [hsel rand randIdx hrand, hsel rand2 randIdx2 hrand2]
  · rw [hnp]
    refine ⟨hj, ?_, ?_⟩
    · intro i hi; rw [hget]; exact hle i hi
    · intro i hi hij; rw [hget]; exact hlt i hi hij

/-- C7 witness: selection with exploration rate 0 on a concrete rational
row with a tie between two maxima. -/
theorem claim7_witness :
    selectAction (0:ℝ) 0 7 [(1:ℚ), 3, 3, 2] = npArgmax [(1:ℚ), 3, 3, 2] :=
  (claim7_greedy [(1:ℚ), 3, 3, 2] 0 0 7 (by simp) rfl le_rfl).1

/-- C4: the reward used by the agent11 batch Q update is the per campaign
rule, effective reach gain times budget minus cost incurred; any entry
whose campaign is found writes exactly the bootstrapped update built from
that reward into the recorded cell; and in the spec scenario (previous
reach 100, current reach 150, target 1000, budget 500, previous cost 10,
current cost 25) the reward equals the effective reach difference times
500 minus 15. -/
theorem claim4_reward_rule :
    (∀ (c : CampObs) (pw : ℤ) (ps : ℝ),
        campaignReward c pw ps =
          (effectiveReach (c.cumReach : ℝ) (c.reach : ℝ)
              - effectiveReach (pw : ℝ) (c.reach : ℝ)) * c.budget - (c.cumCost - ps)) ∧
      (∀ (Q : ℕ → ℕ → ℝ) (alpha gamma : ℝ) (active : List CampObs) (d : ℤ)
          (uid : ℕ) (e : PendAction) (c : CampObs),
        findCampaign active uid = some c →
        ∃ mf : ℝ, batchUpdateEntry Q alpha gamma active d uid e =
          setQ Q e.state e.action
            (Q e.state e.action
              + alpha * (campaignReward c e.won e.spent + gamma * mf
                - Q e.state e.action))) ∧
      campaignReward scenarioCamp 100 10 =
        (effectiveReach 150 1000 - effectiveReach 100 1000) * 500 - 15 := by
  refine ⟨?_, ?_, ?_⟩
  · intro c pw ps
    rw [campaignReward]; ring
  · intro Q alpha gamma active d uid e c h
    rw [batchUpdateEntry, h]
    exact ⟨_, rfl⟩
  · rw [campaignReward, scenarioCamp]
    norm_num
    ring

/-- C4 witness: the batch update applied to the scenario campaign found
under identifier 7, with the agent11 learning rate and discount. -/
theorem claim4_witness :
    ∃ mf : ℝ, batchUpdateEntry (fun _ _ => 0) (1/10) (9/10) [scenarioCamp] 9 7
        ⟨2, 3, 100, 10⟩ =
      setQ (fun _ _ => 0) 2 3
        (0 + (1/10) * (campaignReward scenarioCamp 100 10 + (9/10) * mf - 0)) :=
  claim4_reward_rule.2.1 (fun _ _ => 0) (1/10) (9/10) [scenarioCamp] 9 7
    ⟨2, 3, 100, 10⟩ scenarioCamp (by simp [findCampaign, scenarioCamp])

/-- C5: for positive R the marginal utility is the stated closed form,
it is the analytic derivative in x of the effective reach, and therefore
it agrees with the numerical difference quotient of the effective reach
to within any tolerance for small enough steps. -/
theorem claim5_derivative (x R : ℝ) (hR : 0 < R) :
    marginalUtility x R = 2 / (R * (1 + (aConst * (x / R) - bConst) ^ 2)) ∧
      HasDerivAt (fun y => effectiveReach y R) (marginalUtility x R) x ∧
      ∀ tol : ℝ, 0 < tol → ∃ δ : ℝ, 0 < δ ∧ ∀ h : ℝ, h ≠ 0 → |h| < δ →
        |(effectiveReach (x + h) R - effectiveReach x R) / h - marginalUtility x R|
          < tol := by
  have hRne : R ≠ 0 := ne_of_gt hR
  have hnotle : ¬ R ≤ 0 := not_le.mpr hR
  have ha : aConst ≠ 0 := by rw [aConst]; norm_num
  have hmu : marginalUtility x R = 2 / (R * (1 + (aConst * (x / R) - bConst) ^ 2)) := by
    rw [marginalUtility, if_neg hnotle]
  have hfun : (fun y => effectiveReach y R) =
      fun y => (2 / aConst) * (Real.arctan (aConst * (y / R) - bConst)
        - Real.arctan (-bConst)) := by
    funext y; rw [effectiveReach, if_neg hRne]
  have hinner : HasDerivAt (fun y : ℝ => aConst * (y / R) - bConst) (aConst * (1 / R)) x := by
    simpa using (((hasDerivAt_id x).div_const R).const_mul aConst).sub_const bConst
  have harc := hinner.arctan
  have hd : HasDerivAt (fun y => effectiveReach y R) (marginalUtility x R) x := by
    rw [hfun, hmu]
    have hfull := (harc.sub_const (Real.arctan (-bConst))).const_mul (2 / aConst)
    convert hfull using 1
    have hden : (1 + (aConst * (x / R) - bConst) ^ 2) ≠ 0 := by positivity
    field_simp
    ring
  refine ⟨hmu, hd, ?_⟩
  intro tol htol
  have htend := hasDerivAt_iff_tendsto_slope.mp hd
  rw [Metric.tendsto_nhdsWithin_nhds] at htend
  obtain ⟨δ, hδ, hball⟩ := htend tol htol
  refine ⟨δ, hδ, ?_⟩
  intro h hh hhδ
  have hmem : x + h ∈ ({x}ᶜ : Set ℝ) := by simp [hh]
  have hdist : dist (x + h) x < δ := by
    rw [Real.dist_eq]; simpa using hhδ
  have hres := hball hmem hdist
  rw [Real.dist_eq] at hres
  have hslope : slope (fun y => effectiveReach y R) x (x + h) =
      (effectiveReach (x + h) R - effectiveReach x R) / h := by
    rw [slope_def_field]
    congr 1
    ring
  rw [hslope] at hres
  exact hres

/-- C5 witness: the derivative facts at the concrete point x 0 with
reach 1. -/
theorem claim5_witness :
    marginalUtility 0 1 = 2 / (1 * (1 + (aConst * (0 / 1) - bConst) ^ 2)) ∧
      HasDerivAt (fun y => effectiveReach y 1) (marginalUtility 0 1) 0 ∧
      ∀ tol : ℝ, 0 < tol → ∃ δ : ℝ, 0 < δ ∧ ∀ h : ℝ, h ≠ 0 → |h| < δ →
        |(effectiveReach (0 + h) 1 - effectiveReach 0 1) / h - marginalUtility 0 1|
          < tol :=
  claim5_derivative 0 1 (by norm_num)

/-- C1 counterexample: the effective reach at 500 impressions out of
1000 is not within 0.01 of 0.50. -/
theorem claim1_cex : ¬ |effectiveReach 500 1000 - 0.5| ≤ 0.01 := by
  have h := effectiveReach_500_1000_bounds
  rw [not_le]
  refine lt_abs.mpr (Or.inr ?_)
  linarith [h.2]

/-- C1 (amended): the effective reach at 500 impressions out of 1000,
computed with a 4.08577 and b 3.08577, equals approximately 0.221, within
a tolerance of 0.003. -/
theorem claim1_value : |effectiveReach 500 1000 - 0.221| < 0.003 := by
  have h := effectiveReach_500_1000_bounds
  rw [abs_lt]
  constructor <;> linarith [h.1, h.2]

end

end AdxVerify
